import Mathlib

/-!
Verification of the deterministic angular-computation engine of the
Celestia chart renderer.

The embedding below translates the arithmetic core of the repository's
astronomy service (`getZodiacInfo`, `calculateAscendant`, the elemental
balance and house assignment of `calculateChart`, `calculateAspects`) and
of the zodiac-wheel layout resolver (`resolveCollisions`).  JavaScript
numbers are modelled by exact rationals wherever the operations involved
(addition, subtraction, comparison, `%`, `Math.abs`, `Math.round`,
`Math.floor`) are exact on the inputs considered; the transcendental
ascendant formula is modelled over the reals.  JavaScript-specific
operator semantics (`%` as truncated remainder, `Math.abs`, `Math.round`
as floor of x + 1/2) are reproduced by dedicated helper functions.
-/

/-- JavaScript `Math.abs`: negate exactly the strictly negative inputs. -/
def jsAbs (q : ℚ) : ℚ := if q < 0 then -q else q

/-- Truncation toward zero, the rounding used by the JavaScript `%` operator. -/
def ratTrunc (q : ℚ) : ℤ := if 0 ≤ q then ⌊q⌋ else ⌈q⌉

/-- JavaScript remainder operator `n % d`: `n - d * trunc (n / d)`, so the
result carries the sign of the dividend `n`. -/
def jsFmod (n d : ℚ) : ℚ := n - d * ratTrunc (n / d)

/-- The longitude normalization performed at the top of `getZodiacInfo`:
`const normalized = (longitude + 360) % 360`. -/
def normalized (longitude : ℚ) : ℚ := jsFmod (longitude + 360) 360

/-- JavaScript `Math.round`: round half toward positive infinity. -/
def jsRound (q : ℚ) : ℤ := ⌊q + 1 / 2⌋

/-- The four classical elements attached to the zodiac signs in the
`ZODIAC_SIGNS` constant table. -/
inductive Element : Type
  | fire : Element
  | earth : Element
  | air : Element
  | water : Element
deriving DecidableEq, Inhabited

/-- Elemental balance record produced by `calculateChart`. -/
structure ElementalBalance : Type where
  fire : ℤ
  earth : ℤ
  air : ℤ
  water : ℤ
deriving DecidableEq

/-- One percentage entry of the elemental balance:
`Math.round((count / total) * 100)`. -/
def pctOf (c total : ℕ) : ℤ := jsRound ((c : ℚ) / (total : ℚ) * 100)

/-- The elemental-balance computation of `calculateChart`, applied to the
list of elements of the planets' signs: fire, earth and air are rounded
percentages, water is the remainder `100 - fire - earth - air`, clipped
at 0 (`waterPct < 0 ? 0 : waterPct`).  `total` is
`Math.max(planets.length, 1)`. -/
def elementalBalance (l : List Element) : ElementalBalance :=
  let total := max l.length 1
  let firePct := pctOf (l.count Element.fire) total
  let earthPct := pctOf (l.count Element.earth) total
  let airPct := pctOf (l.count Element.air) total
  let waterPct := 100 - firePct - earthPct - airPct
  ⟨firePct, earthPct, airPct, if waterPct < 0 then 0 else waterPct⟩

/-- Whole-sign house assignment of `calculateChart`:
`house = ((signIndex - ascSignIndex + 12) % 12) + 1`.  The JavaScript `%`
is truncated remainder (`Int.tmod`); for the index ranges that occur the
dividend is positive, where truncated and Euclidean remainder agree. -/
def house (signIndex ascSignIndex : ℤ) : ℤ :=
  (signIndex - ascSignIndex + 12).tmod 12 + 1

/-- Retrograde check of `calculateChart` on the two sampled longitudes:
`eclipticNext.elon < longitude && (longitude - eclipticNext.elon) < 180`. -/
def retroFlag (longitude elonNext : ℚ) : Bool :=
  decide (elonNext < longitude) && decide (longitude - elonNext < 180)

/-- Shortest angular distance on the circle, as computed inline both in
`calculateAspects` and in `resolveCollisions`:
`diff > 180 ? 360 - diff : diff` for `diff = Math.abs(d1 - d2)`. -/
def getDist (d1 d2 : ℚ) : ℚ :=
  let diff := jsAbs (d1 - d2)
  if diff > 180 then 360 - diff else diff

/-- Standard synastry orb used by `calculateAspects`. -/
def ORB : ℚ := 6

/-- Classification chain of `calculateAspects` for one pair of longitudes:
first matching band wins, the orb is the distance to the band's exact
angle, and a pair matching no band yields no record. -/
def aspectOf (a b : ℚ) : Option (String × ℚ) :=
  let angle := getDist a b
  if jsAbs (angle - 0) ≤ ORB then some ("Conjunction", jsAbs (angle - 0))
  else if jsAbs (angle - 60) ≤ ORB * 0.7 then some ("Sextile", jsAbs (angle - 60))
  else if jsAbs (angle - 90) ≤ ORB then some ("Square", jsAbs (angle - 90))
  else if jsAbs (angle - 120) ≤ ORB then some ("Trine", jsAbs (angle - 120))
  else if jsAbs (angle - 180) ≤ ORB then some ("Opposition", jsAbs (angle - 180))
  else none

/-- The data of one planet that `calculateAspects` reads: its name and its
ecliptic longitude (`degree`). -/
structure AspPlanet : Type where
  name : String
  degree : ℚ
deriving DecidableEq

/-- Synastry aspect record pushed by `calculateAspects`. -/
structure SynastryAspect : Type where
  planetA : String
  planetB : String
  aspectType : String
  description : String
  orb : ℚ
deriving DecidableEq

/-- Comparison used to sort aspect records: ascending by orb, mirroring
the comparator `(a, b) => a.orb - b.orb`. -/
def aspectLE (x y : SynastryAspect) : Prop := x.orb ≤ y.orb

instance : DecidableRel aspectLE := fun x y => inferInstanceAs (Decidable (x.orb ≤ y.orb))

instance : IsTotal SynastryAspect aspectLE := ⟨fun x y => le_total x.orb y.orb⟩

instance : IsTrans SynastryAspect aspectLE := ⟨fun _ _ _ h h' => le_trans h h'⟩

/-- The unsorted aspect list accumulated by the two nested `forEach`
loops of `calculateAspects`: outer loop over the first chart's planets,
inner loop over the second chart's planets, one record pushed per pair
that matches a band. -/
def aspectList (p1 p2 : List AspPlanet) : List SynastryAspect :=
  p1.flatMap fun A =>
    p2.filterMap fun B =>
      (aspectOf A.degree B.degree).map fun r =>
        ⟨A.name, B.name, r.1, "", r.2⟩

/-- The final sort of `calculateAspects`: JavaScript `Array.prototype.sort`
is required to be stable, which insertion sort with a non-strict
comparison reproduces. -/
def sortAspects (l : List SynastryAspect) : List SynastryAspect :=
  List.insertionSort aspectLE l

/-- Full `calculateAspects` pipeline: collect, sort by orb, keep the 8
tightest (`.sort((a, b) => a.orb - b.orb).slice(0, 8)`). -/
def calculateAspects (p1 p2 : List AspPlanet) : List SynastryAspect :=
  (sortAspects (aspectList p1 p2)).take 8

/-- Separation of two longitudes as worded by the specification:
`min (|a - b|) (360 - |a - b|)`. -/
def specSeparation (a b : ℚ) : ℚ := min |a - b| (360 - |a - b|)

/-- Ordered aspect band table as worded by the specification: name, exact
angle, orb threshold, evaluated in first-match priority order. -/
def aspectTable : List (String × ℚ × ℚ) :=
  [("Conjunction", 0, 6), ("Sextile", 60, 4.2), ("Square", 90, 6),
   ("Trine", 120, 6), ("Opposition", 180, 6)]

/-- Aspect classification as worded by the specification: compute the
separation, take the first band whose threshold contains it, record the
distance to the band's exact angle as the orb. -/
def specAspectClassify (a b : ℚ) : Option (String × ℚ) :=
  let sep := specSeparation a b
  (aspectTable.find? fun t => decide (|sep - t.2.1| ≤ t.2.2)).map
    fun t => (t.1, |sep - t.2.1|)

/-- Aspect record list as worded by the specification: classify every
cross-pair (first subject times second subject, in enumeration order) and
keep a record exactly for the pairs the classifier accepts. -/
def specAspectRecords (p1 p2 : List AspPlanet) : List SynastryAspect :=
  (p1.product p2).filterMap fun AB =>
    (specAspectClassify AB.1.degree AB.2.degree).map fun r =>
      ⟨AB.1.name, AB.2.name, r.1, "", r.2⟩

/-- Output entry of `resolveCollisions`: the entity's longitude, its
assigned radial track and its isolation flag. -/
structure LayoutEntry : Type where
  degree : ℚ
  track : ℕ
  isIsolated : Bool
deriving DecidableEq, Inhabited

/-- Fuel-driven scan reproducing the `while (usedTracks.has(track)) track++`
loop: starting from `t`, return the first candidate not in `l`. -/
def leastNotInGo (l : List ℕ) : ℕ → ℕ → ℕ
  | 0, t => t
  | fuel + 1, t => if t ∈ l then leastNotInGo l fuel (t + 1) else t

/-- Smallest natural number not occurring in `l`; `l.length + 1` steps of
the scan always suffice. -/
def leastNotIn (l : List ℕ) : ℕ := leastNotInGo l (l.length + 1) 0

/-- The `usedTracks` set built for one entity: tracks of up to the 4
previously processed entities whose circular distance to the entity is
strictly below `minDeg`. -/
def usedTracksFor (acc : List LayoutEntry) (deg minDeg : ℚ) : List ℕ :=
  ((acc.reverse.take 4).filter fun e => decide (getDist deg e.degree < minDeg)).map
    fun e => e.track

/-- One iteration of the `sorted.forEach` loop of `resolveCollisions`:
`acc` is the list of already-processed entries (`withTracks`), `i` the
index into the sorted longitude list. -/
def mkEntry (sorted : List ℚ) (minDeg : ℚ) (acc : List LayoutEntry) (i : ℕ) : LayoutEntry :=
  let n := sorted.length
  let deg := sorted.getD i 0
  let prev := sorted.getD ((i + n - 1) % n) 0
  let next := sorted.getD ((i + 1) % n) 0
  let isIso := if n > 1 ∧ (getDist deg prev < 15 ∨ getDist deg next < 15) then false else true
  ⟨deg, leastNotIn (usedTracksFor acc deg minDeg), isIso⟩

/-- The main `forEach` pass of `resolveCollisions` over the sorted
longitudes, accumulating the `withTracks` list. -/
def mainPass (sorted : List ℚ) (minDeg : ℚ) : List LayoutEntry :=
  (List.range sorted.length).foldl (fun acc i => acc ++ [mkEntry sorted minDeg acc i]) []

/-- Wrap-around patch of `resolveCollisions`: with more than one entry,
if the first and last sorted entities are closer than `minDeg` and landed
on the same track, bump the first entity's track by one. -/
def applyWrapPatch (minDeg : ℚ) : List LayoutEntry → List LayoutEntry
  | [] => []
  | [e] => [e]
  | f :: b :: rest =>
    let lastE := (b :: rest).getLastD f
    if getDist f.degree lastE.degree < minDeg ∧ f.track = lastE.track then
      { f with track := f.track + 1 } :: b :: rest
    else
      f :: b :: rest

/-- Full `resolveCollisions`: sort the longitudes ascending (JavaScript
`sort` with comparator `(a, b) => a.degree - b.degree`), run the
track-assignment pass, then apply the wrap-around patch.  The repository
calls it with the default minimum separation `minDeg = 6`. -/
def resolveCollisions (planets : List ℚ) (minDeg : ℚ) : List LayoutEntry :=
  applyWrapPatch minDeg (mainPass (List.insertionSort (fun a b : ℚ => a ≤ b) planets) minDeg)

/-- Two-argument arctangent with the JavaScript `Math.atan2` range
`(-pi, pi]`, realised as the complex argument of `x + y i`. -/
noncomputable def atan2 (y x : ℝ) : ℝ := Complex.arg ⟨x, y⟩

/-- Truncation toward zero on the reals, for the JavaScript `%` operator. -/
noncomputable def realTrunc (r : ℝ) : ℝ := if 0 ≤ r then (⌊r⌋ : ℝ) else (⌈r⌉ : ℝ)

/-- JavaScript remainder operator on the reals. -/
noncomputable def jsFmodReal (n d : ℝ) : ℝ := n - d * realTrunc (n / d)

/-- The ascendant computation `calculateAscendant` of the astronomy
service, with the Greenwich sidereal time `gmst` (in hours) taken as an
input, since the repository obtains it from the external
`Astronomy.SiderealTime` provider.  The function has no failure path: it
is a total function into the reals, exactly as the source returns a
number for every input. -/
noncomputable def calculateAscendant (gmst lat lon : ℝ) : ℝ :=
  let lstHours := gmst + lon / 15
  let lstDeg := lstHours * 15
  let ramc := lstDeg * Real.pi / 180
  let eps := 23.4392911 * Real.pi / 180
  let latRad := lat * Real.pi / 180
  let num := Real.cos ramc
  let den := -Real.sin ramc * Real.cos eps - Real.tan latRad * Real.sin eps
  let ascRad := atan2 num den
  let ascDeg := ascRad * 180 / Real.pi
  jsFmodReal (ascDeg + 360) 360

/-! ### Helper lemmas about the JavaScript remainder on nonnegative dividends -/

theorem ratTrunc_of_nonneg {q : ℚ} (h : 0 ≤ q) : ratTrunc q = ⌊q⌋ := if_pos h

theorem jsFmod_eq_fract {n : ℚ} (hn : 0 ≤ n) : jsFmod n 360 = 360 * Int.fract (n / 360) := by
  unfold jsFmod
  rw [ratTrunc_of_nonneg (div_nonneg hn (by norm_num)), Int.fract]
  field_simp

theorem jsFmod_mem {n : ℚ} (hn : 0 ≤ n) : 0 ≤ jsFmod n 360 ∧ jsFmod n 360 < 360 := by
  rw [jsFmod_eq_fract hn]
  constructor
  · have h := Int.fract_nonneg (n / 360)
    linarith
  · have h := Int.fract_lt_one (n / 360)
    linarith

theorem normalized_mem {x : ℚ} (hx : -360 ≤ x) : 0 ≤ normalized x ∧ normalized x < 360 :=
  jsFmod_mem (by linarith)

theorem normalized_fixed {y : ℚ} (h0 : 0 ≤ y) (h1 : y < 360) : normalized y = y := by
  unfold normalized jsFmod
  rw [ratTrunc_of_nonneg (by positivity)]
  have hf : ⌊(y + 360) / 360⌋ = 1 := by
    rw [Int.floor_eq_iff]
    constructor
    · rw [le_div_iff₀ (by norm_num : (0:ℚ) < 360)]
      push_cast
      linarith
    · rw [div_lt_iff₀ (by norm_num : (0:ℚ) < 360)]
      push_cast
      linarith
  rw [hf]
  norm_num

/-! ### Helper lemmas about the elemental balance -/

theorem count_elements (l : List Element) :
    l.count Element.fire + l.count Element.earth + l.count Element.air +
      l.count Element.water = l.length := by
  induction l with
  | nil => rfl
  | cons e t ih => cases e <;> simp [List.count_cons] <;> omega

theorem jsRound_intCast (n : ℤ) : jsRound (n : ℚ) = n := by
  unfold jsRound
  rw [add_comm, Int.floor_add_int]
  norm_num

theorem pctOf_ten (c : ℕ) : pctOf c 10 = 10 * c := by
  unfold pctOf
  have h : ((c : ℚ) / ((10 : ℕ) : ℚ) * 100) = (((10 * c : ℤ) : ℤ) : ℚ) := by
    push_cast
    ring
  rw [h, jsRound_intCast]

/-- C2 counterexample: at input longitude -370 the normalization returns
-10, which is negative (outside [0,360)), and applying it again gives 350,
so it is not idempotent there. -/
theorem normalized_claim_counterexample :
    normalized (-370) = -10 ∧ normalized (-370) < 0 ∧
      normalized (normalized (-370)) ≠ normalized (-370) := by
  have h1 : normalized (-370) = -10 := by
    unfold normalized jsFmod ratTrunc
    rw [if_neg (by norm_num)]
    norm_num
  have h2 : normalized (-10) = 350 := by
    unfold normalized jsFmod ratTrunc
    rw [if_pos (by norm_num)]
    norm_num
  rw [h1, h2]
  norm_num

/-- C2 (amended): for every longitude at least -360 (in particular every
longitude the chart pipeline produces), the normalization
`(longitude + 360) % 360` lands in [0,360) and is idempotent. -/
theorem normalized_amended :
    ∀ x : ℚ, -360 ≤ x →
      0 ≤ normalized x ∧ normalized x < 360 ∧
        normalized (normalized x) = normalized x := by
  intro x hx
  obtain ⟨h0, h1⟩ := normalized_mem hx
  exact ⟨h0, h1, normalized_fixed h0 h1⟩

/-- C2 witness: the amended statement applied at the concrete input 725.5. -/
theorem normalized_amended_witness :
    0 ≤ normalized 725.5 ∧ normalized 725.5 < 360 ∧
      normalized (normalized 725.5) = normalized 725.5 :=
  normalized_amended 725.5 (by norm_num)

/-- C3: for every distribution of the 10 fixed bodies over the four
elements, the four computed percentages (fire, earth, air rounded, water
the clipped remainder) sum to exactly 100. -/
theorem elementalBalance_sum_100 :
    ∀ l : List Element, l.length = 10 →
      (elementalBalance l).fire + (elementalBalance l).earth +
        (elementalBalance l).air + (elementalBalance l).water = 100 := by
  intro l hl
  have hc := count_elements l
  rw [hl] at hc
  unfold elementalBalance
  rw [hl]
  norm_num [pctOf_ten]
  omega

/-- C3 witness: the summed percentages at a concrete distribution of the
10 bodies (3 fire, 2 earth, 2 air, 3 water). -/
theorem elementalBalance_sum_100_witness :
    (elementalBalance
        [Element.fire, Element.fire, Element.fire, Element.earth, Element.earth,
         Element.air, Element.air, Element.water, Element.water, Element.water]).fire +
      (elementalBalance
        [Element.fire, Element.fire, Element.fire, Element.earth, Element.earth,
         Element.air, Element.air, Element.water, Element.water, Element.water]).earth +
      (elementalBalance
        [Element.fire, Element.fire, Element.fire, Element.earth, Element.earth,
         Element.air, Element.air, Element.water, Element.water, Element.water]).air +
      (elementalBalance
        [Element.fire, Element.fire, Element.fire, Element.earth, Element.earth,
         Element.air, Element.air, Element.water, Element.water, Element.water]).water = 100 :=
  elementalBalance_sum_100 _ rfl

/-- C9: for the fixed 10-body chart each rounded percentage is exactly 10
times the corresponding element count, the water remainder is exactly 10
times the water count, and the negative-water safety clip is never
taken. -/
theorem elementalBalance_exact :
    ∀ l : List Element, l.length = 10 →
      (elementalBalance l).fire = 10 * (l.count Element.fire : ℤ) ∧
        (elementalBalance l).earth = 10 * (l.count Element.earth : ℤ) ∧
        (elementalBalance l).air = 10 * (l.count Element.air : ℤ) ∧
        (elementalBalance l).water = 10 * (l.count Element.water : ℤ) ∧
        ¬(100 - (elementalBalance l).fire - (elementalBalance l).earth -
            (elementalBalance l).air < 0) := by
  intro l hl
  have hc := count_elements l
  rw [hl] at hc
  unfold elementalBalance
  rw [hl]
  norm_num [pctOf_ten]
  omega

/-- C9 witness: the exact percentages at a concrete distribution of the
10 bodies (1 fire, 4 earth, 4 air, 1 water). -/
theorem elementalBalance_exact_witness :
    (elementalBalance
        [Element.fire, Element.earth, Element.earth, Element.earth, Element.earth,
         Element.air, Element.air, Element.air, Element.air, Element.water]).water =
      10 * (([Element.fire, Element.earth, Element.earth, Element.earth, Element.earth,
         Element.air, Element.air, Element.air, Element.air,
         Element.water].count Element.water : ℕ) : ℤ) ∧
      ¬(100 - (elementalBalance
            [Element.fire, Element.earth, Element.earth, Element.earth, Element.earth,
             Element.air, Element.air, Element.air, Element.air, Element.water]).fire -
          (elementalBalance
            [Element.fire, Element.earth, Element.earth, Element.earth, Element.earth,
             Element.air, Element.air, Element.air, Element.air, Element.water]).earth -
          (elementalBalance
            [Element.fire, Element.earth, Element.earth, Element.earth, Element.earth,
             Element.air, Element.air, Element.air, Element.air, Element.water]).air < 0) := by
  have h := elementalBalance_exact
    [Element.fire, Element.earth, Element.earth, Element.earth, Element.earth,
     Element.air, Element.air, Element.air, Element.air, Element.water] rfl
  exact ⟨h.2.2.2.1, h.2.2.2.2⟩

/-- C6: for every ascendant sign index in 0..11, the whole-sign house
mapping s maps the 12 sign indices bijectively onto the house numbers
1..12: its image is exactly the interval and it is injective on the
domain. -/
theorem house_bijection :
    ∀ a ∈ Finset.Icc (0 : ℤ) 11,
      (Finset.Icc (0 : ℤ) 11).image (fun s => house s a) = Finset.Icc (1 : ℤ) 12 ∧
        ∀ s ∈ Finset.Icc (0 : ℤ) 11, ∀ t ∈ Finset.Icc (0 : ℤ) 11,
          house s a = house t a → s = t := by
  decide

/-- C6 witness: the house mapping for the concrete ascendant sign index 7. -/
theorem house_bijection_witness :
    (Finset.Icc (0 : ℤ) 11).image (fun s => house s 7) = Finset.Icc (1 : ℤ) 12 ∧
      ∀ s ∈ Finset.Icc (0 : ℤ) 11, ∀ t ∈ Finset.Icc (0 : ℤ) 11,
        house s 7 = house t 7 → s = t :=
  house_bijection 7 (by decide)

/-- C7: the retrograde flag computed from the longitude at the requested
instant and the longitude one hour later is true exactly when the later
longitude is numerically smaller and the decrease is below 180 degrees. -/
theorem retroFlag_iff :
    ∀ longitude elonNext : ℚ,
      retroFlag longitude elonNext = true ↔
        elonNext < longitude ∧ longitude - elonNext < 180 := by
  intro L0 L1
  simp [retroFlag]

/-! ### Helper lemmas about the aspect classification -/

theorem jsAbs_eq_abs (q : ℚ) : jsAbs q = |q| := by
  unfold jsAbs
  split_ifs with h
  · rw [abs_of_neg h]
  · rw [abs_of_nonneg (not_lt.mp h)]

theorem getDist_eq_specSeparation (a b : ℚ) : getDist a b = specSeparation a b := by
  unfold getDist specSeparation
  show (if jsAbs (a - b) > 180 then 360 - jsAbs (a - b) else jsAbs (a - b)) =
    min |a - b| (360 - |a - b|)
  rw [jsAbs_eq_abs]
  split_ifs with h
  · rw [min_eq_right]
    linarith
  · rw [min_eq_left]
    linarith

theorem aspectOf_agrees (a b : ℚ) : aspectOf a b = specAspectClassify a b := by
  have h07 : (ORB * 0.7 : ℚ) = 4.2 := by norm_num [ORB]
  have h6 : (ORB : ℚ) = 6 := rfl
  simp only [aspectOf, specAspectClassify, aspectTable, getDist_eq_specSeparation,
    jsAbs_eq_abs, h07, h6]
  split_ifs with h1 h2 h3 h4 h5 <;>
    simp_all [List.find?_cons_of_pos, List.find?_cons_of_neg]

/-- C4: the record list accumulated by `calculateAspects` over every
cross-pair agrees with the specification's description (separation as the
circular minimum, first-match bands at 0, 60, 90, 120, 180 degrees with
thresholds 6 and 4.2, orb as the distance to the exact angle, no record
for a pair outside every band), the per-pair classifiers agree on all
longitudes, and in particular longitudes 10 and 70 have separation
exactly 60 and classify as a Sextile with orb 0. -/
theorem aspectOf_eq_spec :
    (∀ p1 p2 : List AspPlanet, aspectList p1 p2 = specAspectRecords p1 p2) ∧
      (∀ a b : ℚ, aspectOf a b = specAspectClassify a b) ∧
      specSeparation 10 70 = 60 ∧ aspectOf 10 70 = some ("Sextile", 0) := by
  refine ⟨fun p1 p2 => ?_, aspectOf_agrees, ?_, ?_⟩
  · unfold aspectList specAspectRecords List.product
    induction p1 with
    | nil => rfl
    | cons A t ih =>
      rw [List.flatMap_cons, List.flatMap_cons, List.filterMap_append, ih]
      congr 1
      rw [List.filterMap_map]
      congr 1
      funext B
      simp only [Function.comp]
      rw [aspectOf_agrees]
  · have habs : |(10 : ℚ) - 70| = 60 := by
      rw [abs_sub_comm, abs_of_nonneg] <;> norm_num
    unfold specSeparation
    rw [habs]
    norm_num [min_def]
  · norm_num [aspectOf, getDist, jsAbs, ORB]

/-! ### Helper lemmas about the aspect sort: sortedness and stability -/

theorem filter_orb_orderedInsert (q : ℚ) (a : SynastryAspect) (l : List SynastryAspect) :
    (List.orderedInsert aspectLE a l).filter (fun x => decide (x.orb = q)) =
      if a.orb = q then a :: l.filter (fun x => decide (x.orb = q))
      else l.filter (fun x => decide (x.orb = q)) := by
  induction l with
  | nil =>
    rw [List.orderedInsert_nil, List.filter_cons, List.filter_nil]
    by_cases ha : a.orb = q <;> simp [ha]
  | cons b t ih =>
    by_cases hab : aspectLE a b
    · rw [List.orderedInsert, if_pos hab]
      by_cases ha : a.orb = q <;> simp [List.filter_cons, ha]
    · rw [List.orderedInsert, if_neg hab]
      unfold aspectLE at hab
      have hlt : b.orb < a.orb := lt_of_not_le hab
      by_cases ha : a.orb = q
      · have hb : ¬(b.orb = q) := by
          intro hb
          rw [ha] at hlt
          rw [hb] at hlt
          exact lt_irrefl q hlt
        simp [List.filter_cons, ih, ha, hb]
      · by_cases hb : b.orb = q <;> simp [List.filter_cons, ih, ha, hb]

theorem filter_orb_sortAspects (q : ℚ) (l : List SynastryAspect) :
    (sortAspects l).filter (fun x => decide (x.orb = q)) =
      l.filter (fun x => decide (x.orb = q)) := by
  induction l with
  | nil => rfl
  | cons a t ih =>
    rw [sortAspects, List.insertionSort, filter_orb_orderedInsert]
    rw [show List.insertionSort aspectLE t = sortAspects t from rfl, ih, List.filter_cons]
    by_cases h : a.orb = q <;> simp [h]

/-- C5: the list returned by `calculateAspects` is sorted ascending by
orb and holds at most 8 records, and the sort is stable: for every orb
value, the records carrying that orb appear in the sorted list exactly in
their original pair-enumeration order. -/
theorem calculateAspects_sorted_capped_stable :
    ∀ p1 p2 : List AspPlanet,
      List.Sorted aspectLE (calculateAspects p1 p2) ∧
        (calculateAspects p1 p2).length ≤ 8 ∧
        ∀ q : ℚ,
          (sortAspects (aspectList p1 p2)).filter (fun x => decide (x.orb = q)) =
            (aspectList p1 p2).filter (fun x => decide (x.orb = q)) := by
  intro p1 p2
  refine ⟨?_, ?_, fun q => filter_orb_sortAspects q _⟩
  · have h := List.sorted_insertionSort aspectLE (aspectList p1 p2)
    unfold calculateAspects sortAspects
    exact h.sublist (List.take_sublist 8 _)
  · unfold calculateAspects
    rw [List.length_take]
    exact min_le_left _ _

/-! ### Helper lemmas about the layout resolver track bounds -/

theorem leastNotInGo_bound (l : List ℕ) :
    ∀ fuel t, (∀ s < fuel, t + s ∈ l) ∨ leastNotInGo l fuel t < t + fuel := by
  intro fuel
  induction fuel with
  | zero =>
    intro t
    left
    intro s hs
    exact absurd hs (Nat.not_lt_zero s)
  | succ n ih =>
    intro t
    by_cases ht : t ∈ l
    · rcases ih (t + 1) with h | h
      · left
        intro s hs
        cases s with
        | zero => simpa using ht
        | succ s' =>
          have h2 := h s' (by omega)
          have he : t + (s' + 1) = t + 1 + s' := by omega
          rw [he]
          exact h2
      · right
        rw [leastNotInGo, if_pos ht]
        omega
    · right
      rw [leastNotInGo, if_neg ht]
      omega

theorem leastNotIn_le_length (l : List ℕ) : leastNotIn l ≤ l.length := by
  unfold leastNotIn
  rcases leastNotInGo_bound l (l.length + 1) 0 with h | h
  · exfalso
    have hsub : Finset.range (l.length + 1) ⊆ l.toFinset := by
      intro x hx
      rw [List.mem_toFinset]
      have hm := h x (Finset.mem_range.mp hx)
      simpa using hm
    have h1 := Finset.card_le_card hsub
    rw [Finset.card_range] at h1
    have h2 := List.toFinset_card_le l
    omega
  · omega

theorem mkEntry_track_le (sorted : List ℚ) (minDeg : ℚ) (acc : List LayoutEntry) (i : ℕ) :
    (mkEntry sorted minDeg acc i).track ≤ 4 := by
  show leastNotIn (usedTracksFor acc (sorted.getD i 0) minDeg) ≤ 4
  have h1 := leastNotIn_le_length (usedTracksFor acc (sorted.getD i 0) minDeg)
  have h2 : (usedTracksFor acc (sorted.getD i 0) minDeg).length ≤ 4 := by
    unfold usedTracksFor
    rw [List.length_map]
    have h3 := List.length_filter_le
      (fun e => decide (getDist (sorted.getD i 0) e.degree < minDeg)) (acc.reverse.take 4)
    have h4 : (acc.reverse.take 4).length ≤ 4 := by
      rw [List.length_take]
      exact min_le_left _ _
    omega
  omega

theorem mainPass_go_track_le (sorted : List ℚ) (minDeg : ℚ) :
    ∀ (idxs : List ℕ) (acc : List LayoutEntry), (∀ e ∈ acc, e.track ≤ 4) →
      ∀ e ∈ idxs.foldl (fun acc i => acc ++ [mkEntry sorted minDeg acc i]) acc, e.track ≤ 4 := by
  intro idxs
  induction idxs with
  | nil => intro acc h e he; exact h e he
  | cons i rest ih =>
    intro acc h e he
    rw [List.foldl_cons] at he
    refine ih _ ?_ e he
    intro x hx
    rcases List.mem_append.mp hx with h1 | h2
    · exact h x h1
    · rw [List.mem_singleton] at h2
      rw [h2]
      exact mkEntry_track_le sorted minDeg acc i

theorem mainPass_track_le (sorted : List ℚ) (minDeg : ℚ) :
    ∀ e ∈ mainPass sorted minDeg, e.track ≤ 4 :=
  mainPass_go_track_le sorted minDeg (List.range sorted.length) [] (by simp)

theorem applyWrapPatch_bounds (minDeg : ℚ) (l : List LayoutEntry)
    (h : ∀ e ∈ l, e.track ≤ 4) :
    (∀ e ∈ applyWrapPatch minDeg l, e.track ≤ 5) ∧
      ∀ e ∈ (applyWrapPatch minDeg l).tail, e.track ≤ 4 := by
  match l with
  | [] => simp [applyWrapPatch]
  | [e] =>
    refine ⟨fun x hx => ?_, by simp [applyWrapPatch]⟩
    have hx' : x = e := by simpa [applyWrapPatch] using hx
    rw [hx']
    have := h e (by simp)
    omega
  | f :: b :: rest =>
    simp only [applyWrapPatch]
    split_ifs with hc
    · constructor
      · intro x hx
        rcases List.mem_cons.mp hx with h1 | h2
        · rw [h1]
          have := h f (by simp)
          simp
          omega
        · have := h x (List.mem_cons_of_mem f h2)
          omega
      · intro x hx
        rw [List.tail_cons] at hx
        exact h x (List.mem_cons_of_mem f hx)
    · constructor
      · intro x hx
        rcases List.mem_cons.mp hx with h1 | h2
        · rw [h1]
          have := h f (by simp)
          omega
        · have := h x (List.mem_cons_of_mem f h2)
          omega
      · intro x hx
        rw [List.tail_cons] at hx
        exact h x (List.mem_cons_of_mem f hx)

/-- C10: every track assigned by the layout resolver is at most 5, and
every entity other than the first in sorted order has track at most 4:
the 4-entity lookback can occupy at most 4 tracks, so the smallest free
track is at most 4, and only the wrap-around patch can add one more, and
it touches only the first sorted entity. -/
theorem resolveCollisions_track_bounds :
    ∀ (planets : List ℚ) (minDeg : ℚ),
      (∀ e ∈ resolveCollisions planets minDeg, e.track ≤ 5) ∧
        ∀ e ∈ (resolveCollisions planets minDeg).tail, e.track ≤ 4 := by
  intro planets minDeg
  unfold resolveCollisions
  exact applyWrapPatch_bounds minDeg _ (mainPass_track_le _ _)

/-- C10 witness: the bound applied to the one-entity layout at longitude
10 with the default separation 6, whose single entry is ⟨10, 0, true⟩. -/
theorem resolveCollisions_track_bounds_witness :
    ((⟨10, 0, true⟩ : LayoutEntry)).track ≤ 5 :=
  (resolveCollisions_track_bounds [10] 6).1 ⟨10, 0, true⟩ (by decide)

/-- C8 counterexample: on [0, 2, 4, 6, 100] with minimum separation 6 the
resolver assigns tracks [0, 1, 2, 0, 0], not the claimed [0, 1, 2, 3, 0]:
the entity at 6 degrees sits exactly 6 degrees from the entity at 0
degrees, which is not strictly below the threshold, so track 0 is free
for it. -/
theorem resolveCollisions_claim_counterexample :
    (resolveCollisions [0, 2, 4, 6, 100] 6).map (fun e => e.track) = [0, 1, 2, 0, 0] ∧
      ¬(resolveCollisions [0, 2, 4, 6, 100] 6).map (fun e => e.track) = [0, 1, 2, 3, 0] := by
  have h : (resolveCollisions [0, 2, 4, 6, 100] 6).map (fun e => e.track) = [0, 1, 2, 0, 0] := by
    norm_num [resolveCollisions, mainPass, applyWrapPatch, mkEntry, usedTracksFor, leastNotIn,
      leastNotInGo, getDist, jsAbs, List.range_succ, List.getD, List.getLastD]
  refine ⟨h, ?_⟩
  rw [h]
  decide

/-- C8 (amended): on [0, 2, 4, 6, 100] with minimum separation 6 the
resolver assigns the first three entities increasing tracks 0, 1, 2; the
entity at 6 degrees is exactly 6 degrees from the entity at 0 degrees
(not strictly below the threshold), so only tracks 1 and 2 are occupied
for it and it receives track 0; the entity at 100 degrees is isolated and
receives track 0. -/
theorem resolveCollisions_example :
    (resolveCollisions [0, 2, 4, 6, 100] 6).map (fun e => (e.degree, e.track, e.isIsolated)) =
      [(0, 0, false), (2, 1, false), (4, 2, false), (6, 0, false), (100, 0, true)] := by
  norm_num [resolveCollisions, mainPass, applyWrapPatch, mkEntry, usedTracksFor, leastNotIn,
    leastNotInGo, getDist, jsAbs, List.range_succ, List.getD, List.getLastD]

/-! ### Helper lemmas about the ascendant computation -/

theorem atan2_mem (y x : ℝ) : -Real.pi < atan2 y x ∧ atan2 y x ≤ Real.pi :=
  ⟨Complex.neg_pi_lt_arg _, Complex.arg_le_pi _⟩

theorem realTrunc_of_nonneg {r : ℝ} (h : 0 ≤ r) : realTrunc r = (⌊r⌋ : ℝ) := if_pos h

theorem jsFmodReal_mem {n : ℝ} (hn : 0 ≤ n) : 0 ≤ jsFmodReal n 360 ∧ jsFmodReal n 360 < 360 := by
  unfold jsFmodReal
  rw [realTrunc_of_nonneg (div_nonneg hn (by norm_num))]
  have he : n - 360 * (⌊n / 360⌋ : ℝ) = 360 * Int.fract (n / 360) := by
    rw [Int.fract]
    field_simp
  rw [he]
  have h0 := Int.fract_nonneg (n / 360)
  have h1 := Int.fract_lt_one (n / 360)
  constructor
  · positivity
  · linarith

theorem calculateAscendant_mem (gmst lat lon : ℝ) :
    0 ≤ calculateAscendant gmst lat lon ∧ calculateAscendant gmst lat lon < 360 := by
  unfold calculateAscendant
  apply jsFmodReal_mem
  have hpi := Real.pi_pos
  obtain ⟨hlo, _⟩ := atan2_mem
    (Real.cos ((gmst + lon / 15) * 15 * Real.pi / 180))
    (-Real.sin ((gmst + lon / 15) * 15 * Real.pi / 180) *
        Real.cos (23.4392911 * Real.pi / 180) -
      Real.tan (lat * Real.pi / 180) * Real.sin (23.4392911 * Real.pi / 180))
  set a := atan2
    (Real.cos ((gmst + lon / 15) * 15 * Real.pi / 180))
    (-Real.sin ((gmst + lon / 15) * 15 * Real.pi / 180) *
        Real.cos (23.4392911 * Real.pi / 180) -
      Real.tan (lat * Real.pi / 180) * Real.sin (23.4392911 * Real.pi / 180)) with ha
  have hdeg : -180 < a * 180 / Real.pi := by
    rw [neg_lt, ← neg_div, ← neg_mul]
    rw [div_lt_iff₀ hpi] at *
    nlinarith
  linarith

/-- C1: the ascendant computation has no failure path at the poles: for
every sidereal time and observer longitude it returns, at latitude +90 and
at latitude -90 alike, a numeric longitude in [0, 360) instead of failing
with a DomainError. -/
theorem calculateAscendant_polar_numeric :
    ∀ gmst lon : ℝ,
      (0 ≤ calculateAscendant gmst 90 lon ∧ calculateAscendant gmst 90 lon < 360) ∧
        (0 ≤ calculateAscendant gmst (-90) lon ∧ calculateAscendant gmst (-90) lon < 360) :=
  fun gmst lon => ⟨calculateAscendant_mem gmst 90 lon, calculateAscendant_mem gmst (-90) lon⟩
